import Mathlib

/-!
# Verification of the bus-boarding sequencing engine

Shallow embedding of `backend/main.py` (class `OptimizedBoardingProcessor`):
the seat-distance resolver with its memoising cache, the heap-based
sequencer `process_bookings_with_heap`, and the efficiency analyzer
`analyze_boarding_efficiency`.

Modelling conventions:
* Python floats are modelled as exact rationals (`ℚ`); all distances are of
  the form `row + w/10` with `w ∈ {0, 1, 2, 3}`, so no rounding questions
  arise at the granularity of the specification.
* The mutable processor object (`seat_cache` dict, `cache_hits`,
  `cache_misses` counters) is modelled as an explicit `CacheState` value
  threaded through the operations; the dict is an association list (a seat
  label is never remapped to a different value, so lookup order is
  irrelevant).
* Python exceptions (`ValueError` on a bad seat label, `max()`/`min()` on an
  empty seat list) are modelled with `Option`: a raised exception is `none`,
  and the whole batch result is `none` exactly when the Python call raises.
* `heapq` pushes tuples `(-maxDistance, bookingId, info)` and pops the
  minimum each time, so the extraction order is exactly ascending
  lexicographic order on `(-maxDistance, bookingId)`, i.e. descending
  `maxDistance` with ties broken by ascending `bookingId`.  This is modelled
  by sorting with `heapLE` (bookingIds are unique per the data model, so the
  order is a strict total order and heap extraction coincides with sorting).
* The wall-clock `processingTime` and the `cacheStats` block of the Python
  return value are diagnostics that no claim touches; the result record
  keeps the `boardingSequence`, `totalBookings` and `totalPassengers`
  fields, and the cache state is returned alongside.
-/

/-- Column accessibility weights, the `column_weights` dict of
`OptimizedBoardingProcessor.__init__`: A→0.3, B→0.2, C→0.1, D→0.0. -/
def columnWeight (c : Char) : ℚ :=
  if c = 'A' then 3/10
  else if c = 'B' then 2/10
  else if c = 'C' then 1/10
  else 0

/-- The codepoint ranges of the Unicode `Nd` (decimal digit) category,
`(first, last)` with the digit values `0..9` in order — what Python's `\d`
matches on a `str` pattern and `int(...)` parses (extracted from CPython's
`unicodedata`; every range is a run of ten codepoints whose decimal values
are `codepoint - first`). -/
def ndRanges : List (ℕ × ℕ) :=
  [(0x30, 0x39), (0x660, 0x669), (0x6F0, 0x6F9), (0x7C0, 0x7C9),
    (0x966, 0x96F), (0x9E6, 0x9EF), (0xA66, 0xA6F), (0xAE6, 0xAEF),
    (0xB66, 0xB6F), (0xBE6, 0xBEF), (0xC66, 0xC6F), (0xCE6, 0xCEF),
    (0xD66, 0xD6F), (0xDE6, 0xDEF), (0xE50, 0xE59), (0xED0, 0xED9),
    (0xF20, 0xF29), (0x1040, 0x1049), (0x1090, 0x1099), (0x17E0, 0x17E9),
    (0x1810, 0x1819), (0x1946, 0x194F), (0x19D0, 0x19D9), (0x1A80, 0x1A89),
    (0x1A90, 0x1A99), (0x1B50, 0x1B59), (0x1BB0, 0x1BB9), (0x1C40, 0x1C49),
    (0x1C50, 0x1C59), (0xA620, 0xA629), (0xA8D0, 0xA8D9), (0xA900, 0xA909),
    (0xA9D0, 0xA9D9), (0xA9F0, 0xA9F9), (0xAA50, 0xAA59), (0xABF0, 0xABF9),
    (0xFF10, 0xFF19), (0x104A0, 0x104A9), (0x10D30, 0x10D39),
    (0x11066, 0x1106F), (0x110F0, 0x110F9), (0x11136, 0x1113F),
    (0x111D0, 0x111D9), (0x112F0, 0x112F9), (0x11450, 0x11459),
    (0x114D0, 0x114D9), (0x11650, 0x11659), (0x116C0, 0x116C9),
    (0x11730, 0x11739), (0x118E0, 0x118E9), (0x11950, 0x11959),
    (0x11C50, 0x11C59), (0x11D50, 0x11D59), (0x11DA0, 0x11DA9),
    (0x16A60, 0x16A69), (0x16AC0, 0x16AC9), (0x16B50, 0x16B59),
    (0x1D7CE, 0x1D7D7), (0x1D7D8, 0x1D7E1), (0x1D7E2, 0x1D7EB),
    (0x1D7EC, 0x1D7F5), (0x1D7F6, 0x1D7FF), (0x1E140, 0x1E149),
    (0x1E2F0, 0x1E2F9), (0x1E950, 0x1E959), (0x1FBF0, 0x1FBF9)]

/-- The decimal value of a character under Python's `\d` / `int(...)`:
`some v` with `v ∈ 0..9` when the character is a Unicode decimal digit,
`none` otherwise. -/
def digitVal? (c : Char) : Option ℕ :=
  (ndRanges.find? (fun r => decide (r.1 ≤ c.toNat) && decide (c.toNat ≤ r.2))).map
    (fun r => c.toNat - r.1)

/-- One character of the row part: Python's `\d` on a `str` pattern, i.e.
any Unicode decimal digit (category `Nd`), not just ASCII `[0-9]`. -/
def isDigitChar (c : Char) : Bool :=
  (digitVal? c).isSome

/-- Decimal value of a digit string, as Python's `int(...)` computes it on
the row part of a seat label (each character contributes its Unicode
decimal digit value; non-digits cannot occur under the resolver's guard). -/
def parseRow (cs : List Char) : ℕ :=
  cs.foldl (fun acc c => 10 * acc + (digitVal? c).getD 0) 0

/-- One character of the column part: the regex class `[A-D]`. -/
def isColumnChar (c : Char) : Bool :=
  c = 'A' || c = 'B' || c = 'C' || c = 'D'

/-- `OptimizedBoardingProcessor._calculate_seat_distance`: match the label
against `re.match(r'^([A-D])(\d+)$', ...)`; on failure raise (here:
`none`), on success return `row + column_weights[column]`.  Python regex
semantics are kept: with default flags `$` also matches just before one
newline that ends the string (so the digit group is the rest with one
trailing `'\n'` stripped), and `\d` matches any Unicode decimal digit. -/
def calculate_seat_distance (seat_label : String) : Option ℚ :=
  match seat_label.data with
  | [] => none
  | c :: rest =>
      let digits := if rest.getLast? = some '\n' then rest.dropLast else rest
      if isColumnChar c && !digits.isEmpty && digits.all isDigitChar then
        some ((parseRow digits : ℚ) + columnWeight c)
      else
        none

/-- The mutable state of an `OptimizedBoardingProcessor`: the `seat_cache`
dict (as an association list) and the hit/miss counters. -/
structure CacheState where
  seat_cache : List (String × ℚ)
  cache_hits : ℕ
  cache_misses : ℕ
  deriving Repr, DecidableEq

/-- A freshly constructed processor: empty cache, zero counters. -/
def initState : CacheState := ⟨[], 0, 0⟩

/-- `OptimizedBoardingProcessor.get_seat_distance`: consult the cache; on a
hit bump `cache_hits` and return the stored value; on a miss bump
`cache_misses`, compute, store and return.  A `ValueError` from
`_calculate_seat_distance` propagates (`none`) after the miss counter was
already incremented, mirroring the Python statement order. -/
def get_seat_distance (st : CacheState) (seat_label : String) :
    CacheState × Option ℚ :=
  match st.seat_cache.lookup seat_label with
  | some d => ({ st with cache_hits := st.cache_hits + 1 }, some d)
  | none =>
      let st1 := { st with cache_misses := st.cache_misses + 1 }
      match calculate_seat_distance seat_label with
      | some d => ({ st1 with seat_cache := (seat_label, d) :: st1.seat_cache }, some d)
      | none => (st1, none)

/-- `OptimizedBoardingProcessor.clear_cache`: empty the distance map and
reset both counters. -/
def clear_cache (_st : CacheState) : CacheState := ⟨[], 0, 0⟩

/-- An input booking: `{'bookingId': ..., 'seats': [...]}`. -/
structure Booking where
  bookingId : String
  seats : List String
  deriving Repr, DecidableEq

/-- The `booking_info` dict built for each booking inside
`process_bookings_with_heap`. -/
structure BookingInfo where
  bookingId : String
  seats : List String
  maxDistance : ℚ
  minDistance : ℚ
  seatCount : ℕ
  deriving Repr, DecidableEq

/-- One element of the emitted `boarding_sequence`. -/
structure SeqEntry where
  sequence : ℕ
  bookingId : String
  seats : List String
  maxDistance : ℚ
  minDistance : ℚ
  deriving Repr, DecidableEq

/-- The result record of `process_bookings_with_heap` (minus the
`processingTime` and `cacheStats` diagnostics, which no claim involves). -/
structure SequenceResult where
  boardingSequence : List SeqEntry
  totalBookings : ℕ
  totalPassengers : ℕ
  deriving Repr, DecidableEq

/-- The list comprehension
`[self.get_seat_distance(seat) for seat in seats]`: resolve the seats left
to right through the cache, aborting at the first invalid label exactly as
the raised `ValueError` would. -/
def resolveSeats (st : CacheState) : List String → CacheState × Option (List ℚ)
  | [] => (st, some [])
  | s :: rest =>
      match get_seat_distance st s with
      | (st1, none) => (st1, none)
      | (st1, some d) =>
          match resolveSeats st1 rest with
          | (st2, r) => (st2, r.map (d :: ·))

/-- The per-booking body of the first loop of `process_bookings_with_heap`:
resolve all seats, then take `max(...)` and `min(...)` of the distances.
Python's `max([])`/`min([])` raise on an empty seat list, hence `none`. -/
def buildInfo (st : CacheState) (b : Booking) : CacheState × Option BookingInfo :=
  match resolveSeats st b.seats with
  | (st1, none) => (st1, none)
  | (st1, some ds) =>
      match ds.max?, ds.min? with
      | some mx, some mn =>
          (st1, some ⟨b.bookingId, b.seats, mx, mn, b.seats.length⟩)
      | _, _ => (st1, none)

/-- The first loop of `process_bookings_with_heap` over all bookings, with
an exception aborting the whole loop. -/
def buildInfos (st : CacheState) : List Booking → CacheState × Option (List BookingInfo)
  | [] => (st, some [])
  | b :: rest =>
      match buildInfo st b with
      | (st1, none) => (st1, none)
      | (st1, some info) =>
          match buildInfos st1 rest with
          | (st2, r) => (st2, r.map (info :: ·))

/-- The order in which `heapq.heappop` yields the pushed tuples
`(-maxDistance, bookingId, info)`: ascending on `(-maxDistance, bookingId)`,
i.e. descending `maxDistance`, ties by ascending `bookingId`. -/
def heapLE (a b : BookingInfo) : Prop :=
  b.maxDistance < a.maxDistance ∨
    (a.maxDistance = b.maxDistance ∧ a.bookingId ≤ b.bookingId)

instance : DecidableRel heapLE := fun a b =>
  inferInstanceAs (Decidable (_ ∨ _))

/-- The `while booking_data:` pop loop: attach sequence numbers `n, n+1, ...`
to the infos in extraction order. -/
def assignSeq : ℕ → List BookingInfo → List SeqEntry
  | _, [] => []
  | n, info :: rest =>
      ⟨n, info.bookingId, info.seats, info.maxDistance, info.minDistance⟩ ::
        assignSeq (n + 1) rest

/-- `OptimizedBoardingProcessor.process_bookings_with_heap`: build the
per-booking infos (any exception aborts the batch), emit them in heap order
with sequence numbers starting at 1, and total up the bookings and seat
counts. -/
def process_bookings_with_heap (st : CacheState) (bookings : List Booking) :
    CacheState × Option SequenceResult :=
  match buildInfos st bookings with
  | (st1, none) => (st1, none)
  | (st1, some infos) =>
      (st1, some
        { boardingSequence := assignSeq 1 (List.insertionSort heapLE infos)
          totalBookings := bookings.length
          totalPassengers := (bookings.map (fun b => b.seats.length)).sum })

/-- The three metrics returned by `analyze_boarding_efficiency`. -/
structure EfficiencyReport where
  averageDistance : ℚ
  blockingPotential : ℚ
  optimalityScore : ℚ
  deriving Repr, DecidableEq

/-- The analyzer's reference ordering `sorted(sequence, key=lambda x:
-x['maxDistance'])`: descending `maxDistance`, stable on ties. -/
def analyzerLE (a b : SeqEntry) : Prop :=
  b.maxDistance ≤ a.maxDistance

instance : DecidableRel analyzerLE := fun a b =>
  inferInstanceAs (Decidable (_ ≤ _))

/-- The nested `for i ... for j in range(i+1, ...)` loops of the analyzer:
each element contributes, against every later element larger than it, the
difference. -/
def blockingAux : List ℚ → ℚ
  | [] => 0
  | d :: rest =>
      (rest.map (fun dj => if d < dj then dj - d else 0)).sum + blockingAux rest

/-- `sum(1 for i, item in enumerate(sequence) if item['bookingId'] ==
ideal_order[i]['bookingId'])`: positions where the two lists agree on
`bookingId`. -/
def countMatches : List SeqEntry → List SeqEntry → ℕ
  | a :: as_, b :: bs => (if a.bookingId = b.bookingId then 1 else 0) + countMatches as_ bs
  | _, _ => 0

/-- `OptimizedBoardingProcessor.analyze_boarding_efficiency`. -/
def analyze_boarding_efficiency (sequence : List SeqEntry) : EfficiencyReport :=
  if sequence.isEmpty then ⟨0, 0, 0⟩
  else
    let distances := sequence.map (·.maxDistance)
    let average_distance := distances.sum / (distances.length : ℚ)
    let blocking_potential := blockingAux distances
    let ideal_order := List.insertionSort analyzerLE sequence
    let correct_positions := countMatches sequence ideal_order
    ⟨average_distance, blocking_potential,
      (correct_positions : ℚ) / (sequence.length : ℚ) * 100⟩

/-! ## Pure (state-free) descriptions of the resolver pipeline -/

/-- Resolve a seat list without a cache, aborting at the first invalid
label. -/
def seatDistances : List String → Option (List ℚ)
  | [] => some []
  | s :: rest =>
      match calculate_seat_distance s with
      | none => none
      | some d => (seatDistances rest).map (d :: ·)

/-- State-free description of `buildInfo`. -/
def pureInfo (b : Booking) : Option BookingInfo :=
  match seatDistances b.seats with
  | none => none
  | some ds =>
      match ds.max?, ds.min? with
      | some mx, some mn => some ⟨b.bookingId, b.seats, mx, mn, b.seats.length⟩
      | _, _ => none

/-- State-free description of `buildInfos`. -/
def pureInfos : List Booking → Option (List BookingInfo)
  | [] => some []
  | b :: rest =>
      match pureInfo b with
      | none => none
      | some info => (pureInfos rest).map (info :: ·)

/-! ## Specification-side predicates -/

/-- A label matches the regex `^[A-D][0-9]+$` as the specification words
it: one column letter A–D followed by one or more ASCII decimal digits,
nothing else (no leading or trailing characters), case-sensitive. -/
def matchesSeatRegex (s : String) : Prop :=
  ∃ c ds, s.data = c :: ds ∧ (c = 'A' ∨ c = 'B' ∨ c = 'C' ∨ c = 'D') ∧
    ds ≠ [] ∧ ∀ d ∈ ds, '0' ≤ d ∧ d ≤ '9'

/-- What Python's `re.match(r'^([A-D])(\d+)$', ...)` actually accepts on a
`str`: a column letter A–D, then one or more Unicode decimal digits, then
— because `$` with default flags also matches just before a newline that
ends the string — optionally one final `'\n'`. -/
def matchesSeatPyRegex (s : String) : Prop :=
  ∃ c ds tail, s.data = c :: (ds ++ tail) ∧
    (c = 'A' ∨ c = 'B' ∨ c = 'C' ∨ c = 'D') ∧
    ds ≠ [] ∧ (∀ d ∈ ds, isDigitChar d = true) ∧
    (tail = [] ∨ tail = ['\n'])

/-- A cache only holds values the resolver would compute: the invariant
every reachable `CacheState` satisfies. -/
def CacheConsistent (st : CacheState) : Prop :=
  ∀ p ∈ st.seat_cache, calculate_seat_distance p.1 = some p.2

/-- Index-based statement of the blocking-potential sum: over all position
pairs `(i, j)` with `i < j` whose distances are inverted, sum the
differences. -/
def specBlocking (l : List ℚ) : ℚ :=
  ∑ i ∈ Finset.range l.length, ∑ j ∈ Finset.range l.length,
    if i < j ∧ l.getD i 0 < l.getD j 0 then l.getD j 0 - l.getD i 0 else 0

/-- The max/min fields of an emitted entry really are the max and min of
the entry's own seats' resolved distances. -/
def entryDistancesOK (e : SeqEntry) : Prop :=
  ∃ ds, seatDistances e.seats = some ds ∧
    ds.max? = some e.maxDistance ∧ ds.min? = some e.minDistance

/-- A booking the boundary layer may hand to the sequencer: at least one
seat, and every seat label valid. -/
def EligibleBooking (b : Booking) : Prop :=
  b.seats ≠ [] ∧ ∀ s ∈ b.seats, (calculate_seat_distance s).isSome

instance (b : Booking) : Decidable (EligibleBooking b) := by
  unfold EligibleBooking
  infer_instance

/-! ## Cache lemmas -/

/-- A successful association-list lookup exhibits a member pair. -/
theorem lookup_mem {l : List (String × ℚ)} {a : String} {b : ℚ}
    (h : l.lookup a = some b) : (a, b) ∈ l := by
  induction l with
  | nil => simp [List.lookup] at h
  | cons p rest ih =>
      rcases p with ⟨k, v⟩
      by_cases hk : a = k
      · subst hk
        simp [List.lookup] at h
        simp [h]
      · have hb : (a == k) = false := by simp [hk]
        simp [List.lookup, hb] at h
        exact List.mem_cons_of_mem _ (ih h)

/-- On a consistent cache, the value `get_seat_distance` returns is exactly
what the raw resolver computes, independent of the cache contents. -/
theorem get_seat_distance_snd {st : CacheState} (hcc : CacheConsistent st)
    (l : String) : (get_seat_distance st l).2 = calculate_seat_distance l := by
  unfold get_seat_distance
  cases h : st.seat_cache.lookup l with
  | some d => simpa using (hcc _ (lookup_mem h)).symm
  | none =>
      cases hc : calculate_seat_distance l <;> simp [hc]

/-- `get_seat_distance` preserves cache consistency. -/
theorem get_seat_distance_consistent {st : CacheState} (hcc : CacheConsistent st)
    (l : String) : CacheConsistent (get_seat_distance st l).1 := by
  unfold get_seat_distance
  cases h : st.seat_cache.lookup l with
  | some d => exact fun p hp => hcc p hp
  | none =>
      cases hc : calculate_seat_distance l with
      | some d =>
          intro p hp
          simp only [List.mem_cons] at hp
          rcases hp with rfl | hp
          · exact hc
          · exact hcc p hp
      | none => exact fun p hp => hcc p hp

/-- On a cache hit, only the hit counter changes: the distance map and the
miss counter are untouched. -/
theorem get_seat_distance_hit {st : CacheState} {l : String} {d : ℚ}
    (h : st.seat_cache.lookup l = some d) :
    get_seat_distance st l = ({ st with cache_hits := st.cache_hits + 1 }, some d) := by
  unfold get_seat_distance
  rw [h]

/-- A cleared cache is consistent (vacuously). -/
theorem clear_cache_consistent (st : CacheState) : CacheConsistent (clear_cache st) := by
  intro p hp
  simp [clear_cache] at hp

/-- The initial cache is consistent. -/
theorem initState_consistent : CacheConsistent initState := by
  intro p hp
  simp [initState] at hp

/-! ## Purity of the stateful resolver pipeline -/

/-- On a consistent cache, resolving a seat list through the cache computes
the same distances as the state-free resolver, and keeps the cache
consistent. -/
theorem resolveSeats_eq {st : CacheState} (hcc : CacheConsistent st) :
    ∀ ss : List String, (resolveSeats st ss).2 = seatDistances ss ∧
      CacheConsistent (resolveSeats st ss).1 := by
  intro ss
  induction ss generalizing st with
  | nil => exact ⟨rfl, hcc⟩
  | cons s rest ih =>
      rcases hg : get_seat_distance st s with ⟨st1, o⟩
      have ho : o = calculate_seat_distance s := by
        have := get_seat_distance_snd hcc s
        rw [hg] at this
        exact this
      have hst1 : CacheConsistent st1 := by
        have := get_seat_distance_consistent hcc s
        rw [hg] at this
        exact this
      cases o with
      | none =>
          refine ⟨?_, ?_⟩ <;> simp [resolveSeats, hg, seatDistances, ← ho, hst1]
      | some d =>
          rcases hr : resolveSeats st1 rest with ⟨st2, r⟩
          have ihr := ih hst1
          rw [hr] at ihr
          refine ⟨?_, ?_⟩ <;>
            simp [resolveSeats, hg, hr, seatDistances, ← ho, ihr.1, ihr.2]

/-- On a consistent cache, `buildInfo` computes the state-free `pureInfo`
and keeps the cache consistent. -/
theorem buildInfo_eq {st : CacheState} (hcc : CacheConsistent st) (b : Booking) :
    (buildInfo st b).2 = pureInfo b ∧ CacheConsistent (buildInfo st b).1 := by
  rcases hr : resolveSeats st b.seats with ⟨st1, r⟩
  have h := resolveSeats_eq hcc b.seats
  rw [hr] at h
  cases r with
  | none => refine ⟨?_, ?_⟩ <;> simp [buildInfo, hr, pureInfo, ← h.1, h.2]
  | some ds =>
      refine ⟨?_, ?_⟩ <;>
        · simp only [buildInfo, hr, pureInfo, ← h.1]
          rcases ds.max? with _ | mx <;> rcases ds.min? with _ | mn <;> simp [h.2]

/-- On a consistent cache, the whole first loop of the sequencer computes
the state-free `pureInfos` and keeps the cache consistent. -/
theorem buildInfos_eq {st : CacheState} (hcc : CacheConsistent st) :
    ∀ bs : List Booking, (buildInfos st bs).2 = pureInfos bs ∧
      CacheConsistent (buildInfos st bs).1 := by
  intro bs
  induction bs generalizing st with
  | nil => exact ⟨rfl, hcc⟩
  | cons b rest ih =>
      rcases hb : buildInfo st b with ⟨st1, o⟩
      have h := buildInfo_eq hcc b
      rw [hb] at h
      cases o with
      | none => refine ⟨?_, ?_⟩ <;> simp [buildInfos, hb, pureInfos, ← h.1, h.2]
      | some info =>
          rcases hr : buildInfos st1 rest with ⟨st2, r⟩
          have ihr := ih h.2
          rw [hr] at ihr
          refine ⟨?_, ?_⟩ <;>
            simp [buildInfos, hb, hr, pureInfos, ← h.1, ihr.1, ihr.2]

/-! ## Success and failure of the pure pipeline -/

/-- All-valid seat lists resolve to a distance list of the same length. -/
theorem seatDistances_some {ss : List String}
    (h : ∀ s ∈ ss, (calculate_seat_distance s).isSome) :
    ∃ ds, seatDistances ss = some ds ∧ ds.length = ss.length := by
  induction ss with
  | nil => exact ⟨[], rfl, rfl⟩
  | cons s rest ih =>
      rcases Option.isSome_iff_exists.mp (h s (List.mem_cons_self s rest)) with ⟨d, hd⟩
      rcases ih (fun s hs => h s (List.mem_cons_of_mem _ hs)) with ⟨ds, hds, hlen⟩
      exact ⟨d :: ds, by simp [seatDistances, hd, hds], by simp [hlen]⟩

/-- A seat list with one invalid label fails to resolve. -/
theorem seatDistances_none {ss : List String} {s : String} (hs : s ∈ ss)
    (h : calculate_seat_distance s = none) : seatDistances ss = none := by
  induction ss with
  | nil => simp at hs
  | cons a rest ih =>
      rcases List.mem_cons.mp hs with rfl | hmem
      · simp [seatDistances, h]
      · cases ha : calculate_seat_distance a <;> simp [seatDistances, ha, ih hmem]

/-- An eligible booking yields an info whose identity fields are copied from
the booking and whose max/min really are over its seats' distances. -/
theorem pureInfo_eligible {b : Booking} (h : EligibleBooking b) :
    ∃ info, pureInfo b = some info ∧ info.bookingId = b.bookingId ∧
      info.seats = b.seats := by
  rcases seatDistances_some h.2 with ⟨ds, hds, hlen⟩
  have hne : ds ≠ [] := by
    intro hnil
    exact h.1 (List.length_eq_zero.mp (by rw [← hlen, hnil]; rfl))
  rcases ds with _ | ⟨d, ds'⟩
  · exact absurd rfl hne
  · exact ⟨⟨b.bookingId, b.seats, ds'.foldl max d, ds'.foldl min d, b.seats.length⟩,
      by simp [pureInfo, hds, List.max?, List.min?], rfl, rfl⟩

/-- Whatever `pureInfo` returns is an info whose max/min fields are the max
and min of its own seats' resolved distances. -/
theorem pureInfo_distancesOK {b : Booking} {info : BookingInfo}
    (h : pureInfo b = some info) :
    ∃ ds, seatDistances info.seats = some ds ∧
      ds.max? = some info.maxDistance ∧ ds.min? = some info.minDistance := by
  unfold pureInfo at h
  split at h
  · simp at h
  · next ds hds =>
      split at h
      · next mx mn hmx hmn =>
          injection h with h
          subst h
          exact ⟨ds, hds, hmx, hmn⟩
      · simp at h

/-- `pureInfo` copies `bookingId` and `seats` from the booking. -/
theorem pureInfo_fields {b : Booking} {info : BookingInfo}
    (h : pureInfo b = some info) :
    info.bookingId = b.bookingId ∧ info.seats = b.seats := by
  unfold pureInfo at h
  split at h
  · simp at h
  · split at h
    · injection h with h
      subst h
      exact ⟨rfl, rfl⟩
    · simp at h

/-- A batch of eligible bookings builds an info list with the same length,
identical `bookingId` list, and every info traceable to an input booking. -/
theorem pureInfos_eligible {bs : List Booking}
    (h : ∀ b ∈ bs, EligibleBooking b) :
    ∃ infos, pureInfos bs = some infos ∧
      infos.map (·.bookingId) = bs.map (·.bookingId) ∧
      infos.length = bs.length ∧
      ∀ info ∈ infos, ∃ b ∈ bs, pureInfo b = some info := by
  induction bs with
  | nil => exact ⟨[], rfl, rfl, rfl, by simp⟩
  | cons b rest ih =>
      rcases pureInfo_eligible (h b (List.mem_cons_self b rest)) with ⟨info, hinfo, hid, _⟩
      rcases ih (fun b' hb' => h b' (List.mem_cons_of_mem _ hb')) with
        ⟨infos, hinfos, hids, hlen, htrace⟩
      refine ⟨info :: infos, by simp [pureInfos, hinfo, hinfos], by simp [hid, hids],
        by simp [hlen], ?_⟩
      intro i hi
      rcases List.mem_cons.mp hi with rfl | hi
      · exact ⟨b, List.mem_cons_self b rest, hinfo⟩
      · rcases htrace i hi with ⟨b', hb', hb's⟩
        exact ⟨b', List.mem_cons_of_mem _ hb', hb's⟩

/-- If any member booking fails to build, the whole batch fails. -/
theorem pureInfos_none {bs : List Booking} {b : Booking} (hb : b ∈ bs)
    (h : pureInfo b = none) : pureInfos bs = none := by
  induction bs with
  | nil => simp at hb
  | cons a rest ih =>
      rcases List.mem_cons.mp hb with rfl | hmem
      · simp [pureInfos, h]
      · cases ha : pureInfo a <;> simp [pureInfos, ha, ih hmem]

/-- A booking containing an invalid seat label fails to build. -/
theorem pureInfo_invalid_seat {b : Booking} {s : String} (hs : s ∈ b.seats)
    (h : calculate_seat_distance s = none) : pureInfo b = none := by
  simp [pureInfo, seatDistances_none hs h]

/-- A booking with an empty seat list fails to build, in any cache state:
this is Python's `max([])` raising `ValueError`. -/
theorem buildInfo_empty_seats {b : Booking} (h : b.seats = []) (st : CacheState) :
    (buildInfo st b).2 = none := by
  simp [buildInfo, h, resolveSeats, List.max?]

/-- A member booking that fails in every cache state makes the whole loop
fail. -/
theorem buildInfos_member_none {bs : List Booking} {b : Booking} (hb : b ∈ bs)
    (h : ∀ st, (buildInfo st b).2 = none) :
    ∀ st, (buildInfos st bs).2 = none := by
  induction bs with
  | nil => simp at hb
  | cons a rest ih =>
      intro st
      rcases List.mem_cons.mp hb with rfl | hmem
      · rcases ha : buildInfo st b with ⟨st1, o⟩
        have := h st
        rw [ha] at this
        simp at this
        simp [buildInfos, ha, this]
      · rcases ha : buildInfo st a with ⟨st1, o⟩
        cases o with
        | none => simp [buildInfos, ha]
        | some info =>
            rcases hr : buildInfos st1 rest with ⟨st2, r⟩
            have := ih hmem st1
            rw [hr] at this
            simp at this
            simp [buildInfos, ha, hr, this]

/-- Success of `buildInfos` preserves the booking count. -/
theorem pureInfos_length {bs : List Booking} {infos : List BookingInfo}
    (h : pureInfos bs = some infos) : infos.length = bs.length := by
  induction bs generalizing infos with
  | nil => simp [pureInfos] at h; simp [← h]
  | cons b rest ih =>
      unfold pureInfos at h
      rcases hb : pureInfo b with _ | info <;> rw [hb] at h
      · simp at h
      · rcases hr : pureInfos rest with _ | infos' <;> rw [hr] at h <;> simp at h
        simp [← h, ih hr]

/-! ## Sequence-number assignment -/

/-- The sequence numbers handed out by the pop loop starting at `n` are
exactly `n, n+1, ..., n+len-1`. -/
theorem assignSeq_map_sequence : ∀ (n : ℕ) (l : List BookingInfo),
    (assignSeq n l).map (·.sequence) = List.range' n l.length := by
  intro n l
  induction l generalizing n with
  | nil => rfl
  | cons info rest ih => simp [assignSeq, List.range', ih]

/-- `assignSeq` copies every data field from the underlying info. -/
theorem assignSeq_mem {n : ℕ} {l : List BookingInfo} {e : SeqEntry}
    (h : e ∈ assignSeq n l) :
    ∃ info ∈ l, e.bookingId = info.bookingId ∧ e.seats = info.seats ∧
      e.maxDistance = info.maxDistance ∧ e.minDistance = info.minDistance := by
  induction l generalizing n with
  | nil => simp [assignSeq] at h
  | cons info rest ih =>
      rcases List.mem_cons.mp h with rfl | hmem
      · exact ⟨info, List.mem_cons_self _ _, rfl, rfl, rfl, rfl⟩
      · rcases ih hmem with ⟨info', hmem', hfields⟩
        exact ⟨info', List.mem_cons_of_mem _ hmem', hfields⟩

/-- `assignSeq` preserves the `bookingId` column. -/
theorem assignSeq_map_bookingId : ∀ (n : ℕ) (l : List BookingInfo),
    (assignSeq n l).map (·.bookingId) = l.map (·.bookingId) := by
  intro n l
  induction l generalizing n with
  | nil => rfl
  | cons info rest ih => simp [assignSeq, ih]

/-- `assignSeq` preserves the length. -/
theorem assignSeq_length : ∀ (n : ℕ) (l : List BookingInfo),
    (assignSeq n l).length = l.length := by
  intro n l
  induction l generalizing n with
  | nil => rfl
  | cons info rest ih => simp [assignSeq, ih]

/-- `assignSeq` transports any pairwise relation that only looks at the
copied fields. -/
theorem assignSeq_pairwise {R : BookingInfo → BookingInfo → Prop}
    {R' : SeqEntry → SeqEntry → Prop}
    (hlift : ∀ (n m : ℕ) (i j : BookingInfo), R i j →
      R' ⟨n, i.bookingId, i.seats, i.maxDistance, i.minDistance⟩
         ⟨m, j.bookingId, j.seats, j.maxDistance, j.minDistance⟩) :
    ∀ (n : ℕ) {l : List BookingInfo}, l.Pairwise R → (assignSeq n l).Pairwise R' := by
  intro n l hp
  induction l generalizing n with
  | nil => exact List.Pairwise.nil
  | cons info rest ih =>
      rcases List.pairwise_cons.mp hp with ⟨hhead, htail⟩
      refine List.pairwise_cons.mpr ⟨?_, ih (n + 1) htail⟩
      intro e he
      rcases assignSeq_mem he with ⟨j, hj, hid, hseats, hmax, hmin⟩
      have := hlift n e.sequence info j (hhead j hj)
      have he' : e = ⟨e.sequence, j.bookingId, j.seats, j.maxDistance, j.minDistance⟩ := by
        cases e
        simp_all
      rw [he']
      exact hlift n e.sequence info j (hhead j hj)

/-! ## Order facts about the heap key -/

instance : IsTrans BookingInfo heapLE where
  trans a b c hab hbc := by
    rcases hab with hab | ⟨hab, hab'⟩ <;> rcases hbc with hbc | ⟨hbc, hbc'⟩
    · exact Or.inl (lt_trans hbc hab)
    · exact Or.inl (hbc ▸ hab)
    · exact Or.inl (hab ▸ hbc)
    · exact Or.inr ⟨hab.trans hbc, le_trans hab' hbc'⟩

instance : IsTotal BookingInfo heapLE where
  total a b := by
    rcases lt_trichotomy a.maxDistance b.maxDistance with h | h | h
    · exact Or.inr (Or.inl h)
    · rcases le_total a.bookingId b.bookingId with h' | h'
      · exact Or.inl (Or.inr ⟨h, h'⟩)
      · exact Or.inr (Or.inr ⟨h.symm, h'⟩)
    · exact Or.inl (Or.inl h)

/-- The heap key order implies weakly descending `maxDistance`. -/
theorem heapLE_max_ge {a b : BookingInfo} (h : heapLE a b) :
    b.maxDistance ≤ a.maxDistance := by
  rcases h with h | ⟨h, _⟩
  · exact le_of_lt h
  · exact le_of_eq h.symm

instance : IsTrans SeqEntry analyzerLE where
  trans a b c hab hbc := le_trans hbc hab

instance : IsTotal SeqEntry analyzerLE where
  total a b := le_total b.maxDistance a.maxDistance

/-! ## Unfolding the sequencer -/

/-- Characterisation of a successful sequencing run: the entries are the
sorted infos numbered from 1, and the totals are over the raw input. -/
theorem process_some {st : CacheState} {bookings : List Booking}
    {infos : List BookingInfo} (h : (buildInfos st bookings).2 = some infos) :
    (process_bookings_with_heap st bookings).2 = some
      { boardingSequence := assignSeq 1 (List.insertionSort heapLE infos)
        totalBookings := bookings.length
        totalPassengers := (bookings.map (fun b => b.seats.length)).sum } := by
  unfold process_bookings_with_heap
  rcases hb : buildInfos st bookings with ⟨st1, o⟩
  rw [hb] at h
  simp at h
  subst h
  rfl

/-- A failed info build fails the whole call. -/
theorem process_none {st : CacheState} {bookings : List Booking}
    (h : (buildInfos st bookings).2 = none) :
    (process_bookings_with_heap st bookings).2 = none := by
  unfold process_bookings_with_heap
  rcases hb : buildInfos st bookings with ⟨st1, o⟩
  rw [hb] at h
  simp at h
  subst h
  rfl

/-- Conversely, any successful run arises from a successful info build in
this exact shape. -/
theorem process_some_inv {st : CacheState} {bookings : List Booking}
    {res : SequenceResult} (h : (process_bookings_with_heap st bookings).2 = some res) :
    ∃ infos, (buildInfos st bookings).2 = some infos ∧
      res = { boardingSequence := assignSeq 1 (List.insertionSort heapLE infos)
              totalBookings := bookings.length
              totalPassengers := (bookings.map (fun b => b.seats.length)).sum } := by
  unfold process_bookings_with_heap at h
  rcases hb : buildInfos st bookings with ⟨st1, o⟩
  rw [hb] at h
  cases o with
  | none => simp at h
  | some infos =>
      simp at h
      exact ⟨infos, rfl, h.symm⟩

/-! ## Analyzer lemmas -/

/-- Summing a function of the entries over all positions is summing it over
the list. -/
theorem sum_range_getD (h : ℚ → ℚ) (l : List ℚ) :
    ∑ j ∈ Finset.range l.length, h (l.getD j 0) = (l.map h).sum := by
  induction l with
  | nil => simp
  | cons a l ih =>
      rw [List.length_cons, Finset.sum_range_succ']
      simp only [List.getD_cons_succ, List.getD_cons_zero]
      rw [ih, List.map_cons, List.sum_cons, add_comm]

/-- Peeling the head off the index-based inversion sum. -/
theorem specBlocking_cons (d : ℚ) (l : List ℚ) :
    specBlocking (d :: l) =
      (l.map (fun dj => if d < dj then dj - d else 0)).sum + specBlocking l := by
  unfold specBlocking
  rw [List.length_cons, Finset.sum_range_succ']
  have hF0 : (∑ j ∈ Finset.range (l.length + 1),
      if 0 < j ∧ (d :: l).getD 0 0 < (d :: l).getD j 0
      then (d :: l).getD j 0 - (d :: l).getD 0 0 else 0)
      = (l.map (fun dj => if d < dj then dj - d else 0)).sum := by
    rw [Finset.sum_range_succ']
    simp only [List.getD_cons_succ, List.getD_cons_zero, Nat.succ_pos, true_and,
      lt_irrefl, false_and, if_false, add_zero]
    exact sum_range_getD (fun x => if d < x then x - d else 0) l
  have hFs : ∀ i ∈ Finset.range l.length,
      (∑ j ∈ Finset.range (l.length + 1),
        if i + 1 < j ∧ (d :: l).getD (i + 1) 0 < (d :: l).getD j 0
        then (d :: l).getD j 0 - (d :: l).getD (i + 1) 0 else 0)
      = ∑ j ∈ Finset.range l.length,
        if i < j ∧ l.getD i 0 < l.getD j 0 then l.getD j 0 - l.getD i 0 else 0 := by
    intro i _
    rw [Finset.sum_range_succ']
    simp [List.getD_cons_succ, Nat.add_lt_add_iff_right]
  rw [Finset.sum_congr rfl hFs, hF0, add_comm]

/-- The analyzer's nested loops compute exactly the index-based inversion
sum. -/
theorem blockingAux_eq_specBlocking : ∀ l : List ℚ, blockingAux l = specBlocking l
  | [] => by simp [blockingAux, specBlocking]
  | d :: l => by
      rw [blockingAux, specBlocking_cons, blockingAux_eq_specBlocking l]

/-- A weakly descending distance list has no inversions. -/
theorem blockingAux_of_pairwise_ge {l : List ℚ}
    (h : l.Pairwise (fun a b => b ≤ a)) : blockingAux l = 0 := by
  induction l with
  | nil => rfl
  | cons d rest ih =>
      rcases List.pairwise_cons.mp h with ⟨hhead, htail⟩
      rw [blockingAux, ih htail, add_zero]
      apply List.sum_eq_zero
      intro x hx
      rcases List.mem_map.mp hx with ⟨dj, hdj, rfl⟩
      simp [not_lt.mpr (hhead dj hdj)]

/-- A list agrees with itself at every position. -/
theorem countMatches_self : ∀ l : List SeqEntry, countMatches l l = l.length := by
  intro l
  induction l with
  | nil => rfl
  | cons e rest ih => simp [countMatches, ih, Nat.add_comm]

/-- The analyzer returns all-zero metrics on the empty sequence. -/
theorem analyze_empty : analyze_boarding_efficiency [] = ⟨0, 0, 0⟩ := rfl

/-- The average the analyzer reports is the arithmetic mean of the
`maxDistance` column (with the `0/0 = 0` convention at the empty list). -/
theorem analyze_averageDistance (entries : List SeqEntry) :
    (analyze_boarding_efficiency entries).averageDistance =
      (entries.map (·.maxDistance)).sum / (entries.length : ℚ) := by
  unfold analyze_boarding_efficiency
  cases entries with
  | nil => simp
  | cons e l => simp

/-- The blocking potential the analyzer reports is the index-based
inversion sum over the `maxDistance` column. -/
theorem analyze_blockingPotential (entries : List SeqEntry) :
    (analyze_boarding_efficiency entries).blockingPotential =
      specBlocking (entries.map (·.maxDistance)) := by
  unfold analyze_boarding_efficiency
  cases entries with
  | nil => simp [specBlocking]
  | cons e l =>
      simp only [List.isEmpty_cons, Bool.false_eq_true, if_false]
      exact blockingAux_eq_specBlocking _

/-- On a weakly descending sequence the analyzer reports zero blocking
potential and (when the sequence is non-empty) a perfect score. -/
theorem analyze_descending {entries : List SeqEntry}
    (hs : List.Pairwise (fun a b => b.maxDistance ≤ a.maxDistance) entries) :
    (analyze_boarding_efficiency entries).blockingPotential = 0 ∧
    (entries ≠ [] → (analyze_boarding_efficiency entries).optimalityScore = 100) := by
  have hs' : List.Sorted analyzerLE entries := hs
  constructor
  · rw [analyze_blockingPotential, ← blockingAux_eq_specBlocking]
    exact blockingAux_of_pairwise_ge (List.pairwise_map.mpr hs)
  · intro hne
    have hideal : List.insertionSort analyzerLE entries = entries :=
      List.Sorted.insertionSort_eq hs'
    unfold analyze_boarding_efficiency
    cases entries with
    | nil => exact absurd rfl hne
    | cons e l =>
        simp only [List.isEmpty_cons, Bool.false_eq_true, if_false]
        rw [hideal, countMatches_self]
        have hlen : (((e :: l).length : ℚ)) ≠ 0 := by
          rw [List.length_cons]
          exact_mod_cast Nat.succ_ne_zero l.length
        rw [div_self hlen, one_mul]

/-! ## The output of the sequencer is sorted -/

/-- Every successful sequencing output is pairwise ordered by the heap key:
weakly descending `maxDistance`, and ascending `bookingId` on equal
distances. -/
theorem process_entries_sorted {st : CacheState} {bookings : List Booking}
    {res : SequenceResult}
    (h : (process_bookings_with_heap st bookings).2 = some res) :
    List.Pairwise (fun a b : SeqEntry =>
      b.maxDistance < a.maxDistance ∨
        (a.maxDistance = b.maxDistance ∧ a.bookingId ≤ b.bookingId))
      res.boardingSequence := by
  rcases process_some_inv h with ⟨infos, _, rfl⟩
  have hsorted := List.sorted_insertionSort heapLE infos
  exact assignSeq_pairwise (fun n m i j hij => hij) 1 hsorted

/-- Every successful sequencing output is weakly descending in
`maxDistance`. -/
theorem process_entries_descending {st : CacheState} {bookings : List Booking}
    {res : SequenceResult}
    (h : (process_bookings_with_heap st bookings).2 = some res) :
    List.Pairwise (fun a b : SeqEntry => b.maxDistance ≤ a.maxDistance)
      res.boardingSequence :=
  (process_entries_sorted h).imp (fun hab => by
    rcases hab with hab | ⟨hab, _⟩
    · exact le_of_lt hab
    · exact le_of_eq hab.symm)

/-! ## Claim theorems -/

/-- C1: for every list of eligible bookings (non-empty, all-valid seat
lists) sequencing succeeds and returns exactly one entry per input booking;
each entry's `maxDistance`/`minDistance` are the max/min of its own seats'
resolved distances; adjacent entries have non-ascending `maxDistance`; the
sequence numbers are exactly `1..n`; and the multiset of emitted
`bookingId`s equals the multiset of input `bookingId`s. -/
theorem C1_sequencer_correct (st : CacheState) (bookings : List Booking)
    (hcc : CacheConsistent st) (helig : ∀ b ∈ bookings, EligibleBooking b) :
    ∃ res, (process_bookings_with_heap st bookings).2 = some res ∧
      res.boardingSequence.length = bookings.length ∧
      (∀ e ∈ res.boardingSequence, entryDistancesOK e ∧
        ∃ b ∈ bookings, e.bookingId = b.bookingId ∧ e.seats = b.seats) ∧
      res.boardingSequence.map (·.sequence) = List.range' 1 bookings.length ∧
      (∀ i : ℕ, ∀ h : i + 1 < res.boardingSequence.length,
        (res.boardingSequence.get ⟨i + 1, h⟩).maxDistance ≤
          (res.boardingSequence.get ⟨i, Nat.lt_of_succ_lt h⟩).maxDistance) ∧
      (res.boardingSequence.map (·.bookingId)).Perm (bookings.map (·.bookingId)) := by
  rcases pureInfos_eligible helig with ⟨infos, hinfos, hids, hlen, htrace⟩
  have hsome : (buildInfos st bookings).2 = some infos := by
    rw [(buildInfos_eq hcc bookings).1, hinfos]
  have hp := process_some hsome
  refine ⟨_, hp, ?_, ?_, ?_, ?_, ?_⟩
  · simp [assignSeq_length, hlen]
  · intro e he
    rcases assignSeq_mem he with ⟨info, hmem, hid, hseats, hmax, hmin⟩
    have hmem' : info ∈ infos := (List.mem_insertionSort heapLE).mp hmem
    rcases htrace info hmem' with ⟨b, hb, hbi⟩
    rcases pureInfo_distancesOK hbi with ⟨ds, hds, hdsmax, hdsmin⟩
    rcases pureInfo_fields hbi with ⟨hbid, hbseats⟩
    refine ⟨⟨ds, ?_, ?_, ?_⟩, b, hb, ?_, ?_⟩
    · rw [hseats]; exact hds
    · rw [hmax]; exact hdsmax
    · rw [hmin]; exact hdsmin
    · rw [hid, hbid]
    · rw [hseats, hbseats]
  · rw [assignSeq_map_sequence]
    simp [hlen]
  · intro i h
    have hpw : List.Pairwise (fun a b : SeqEntry => b.maxDistance ≤ a.maxDistance)
        (assignSeq 1 (List.insertionSort heapLE infos)) :=
      assignSeq_pairwise (fun n m i j hij => heapLE_max_ge hij) 1
        (List.sorted_insertionSort heapLE infos)
    exact List.pairwise_iff_get.mp hpw ⟨i, Nat.lt_of_succ_lt h⟩ ⟨i + 1, h⟩
      (Nat.lt_succ_self i)
  · rw [assignSeq_map_bookingId, ← hids]
    exact (List.perm_insertionSort heapLE infos).map _

/-- Closed witness for C1 at the spec's concrete three-booking batch. -/
theorem C1_witness :
    CacheConsistent initState ∧
    (∀ b ∈ ([⟨"101", ["A1", "B1"]⟩, ⟨"120", ["A20", "C2"]⟩,
        ⟨"150", ["D15", "C15"]⟩] : List Booking), EligibleBooking b) ∧
    (∃ res, (process_bookings_with_heap initState
        [⟨"101", ["A1", "B1"]⟩, ⟨"120", ["A20", "C2"]⟩, ⟨"150", ["D15", "C15"]⟩]).2
          = some res ∧
      res.boardingSequence.length = 3 ∧
      (∀ e ∈ res.boardingSequence, entryDistancesOK e ∧
        ∃ b ∈ ([⟨"101", ["A1", "B1"]⟩, ⟨"120", ["A20", "C2"]⟩,
            ⟨"150", ["D15", "C15"]⟩] : List Booking),
          e.bookingId = b.bookingId ∧ e.seats = b.seats) ∧
      res.boardingSequence.map (·.sequence) = List.range' 1 3 ∧
      (∀ i : ℕ, ∀ h : i + 1 < res.boardingSequence.length,
        (res.boardingSequence.get ⟨i + 1, h⟩).maxDistance ≤
          (res.boardingSequence.get ⟨i, Nat.lt_of_succ_lt h⟩).maxDistance) ∧
      (res.boardingSequence.map (·.bookingId)).Perm ["101", "120", "150"]) :=
  ⟨initState_consistent, by decide,
    C1_sequencer_correct initState _ initState_consistent (by decide)⟩

/-- Unfolding the resolver on an empty label. -/
theorem calc_nil {s : String} (hs : s.data = []) :
    calculate_seat_distance s = none := by
  unfold calculate_seat_distance
  rw [hs]

/-- Unfolding the resolver on a label with a head character. -/
theorem calc_cons {s : String} {c : Char} {rest : List Char}
    (hs : s.data = c :: rest) :
    calculate_seat_distance s =
      (let digits := if rest.getLast? = some '\n' then rest.dropLast else rest
       if isColumnChar c && !digits.isEmpty && digits.all isDigitChar then
         some ((parseRow digits : ℚ) + columnWeight c)
       else none) := by
  unfold calculate_seat_distance
  rw [hs]

/-- The guard of `_calculate_seat_distance` holds exactly when the match
components hold on the (newline-stripped) digit group. -/
theorem guard_iff (c : Char) (digits : List Char) :
    (isColumnChar c && !digits.isEmpty && digits.all isDigitChar) = true ↔
      ((c = 'A' ∨ c = 'B' ∨ c = 'C' ∨ c = 'D') ∧ digits ≠ [] ∧
        ∀ d ∈ digits, isDigitChar d = true) := by
  simp [isColumnChar, Bool.and_eq_true, Bool.or_eq_true,
    decide_eq_true_eq, List.all_eq_true, and_assoc, or_assoc,
    List.isEmpty_iff]

/-- An ASCII decimal digit lies in the first `Nd` range, with its usual
value. -/
theorem ascii_digitVal {d : Char} (h1 : '0' ≤ d) (h2 : d ≤ '9') :
    digitVal? d = some (d.toNat - 48) := by
  have hp : (fun r : ℕ × ℕ => decide (r.1 ≤ d.toNat) && decide (d.toNat ≤ r.2))
      (0x30, 0x39) = true := by
    have hl : 48 ≤ d.toNat := h1
    have hr : d.toNat ≤ 57 := h2
    simp [hl, hr]
  have hfind : ndRanges.find?
      (fun r => decide (r.1 ≤ d.toNat) && decide (d.toNat ≤ r.2)) =
        some (0x30, 0x39) := by
    rw [show ndRanges = (0x30, 0x39) :: ndRanges.tail from rfl]
    exact List.find?_cons_of_pos _ hp
  unfold digitVal?
  rw [hfind]
  rfl

/-- ASCII decimal digits satisfy the Unicode digit class. -/
theorem ascii_isDigit {d : Char} (h1 : '0' ≤ d) (h2 : d ≤ '9') :
    isDigitChar d = true := by
  simp [isDigitChar, ascii_digitVal h1 h2]

/-- A Unicode digit below codepoint 128 is an ASCII decimal digit: the
only `Nd` range starting below 128 is `0x30..0x39`. -/
theorem digit_ascii {d : Char} (hdig : isDigitChar d = true)
    (h128 : d.toNat < 128) : '0' ≤ d ∧ d ≤ '9' := by
  unfold isDigitChar digitVal? at hdig
  cases hfind : ndRanges.find?
      (fun r => decide (r.1 ≤ d.toNat) && decide (d.toNat ≤ r.2)) with
  | none => rw [hfind] at hdig; simp at hdig
  | some r =>
      have hp := List.find?_some hfind
      have hmem := List.mem_of_find?_eq_some hfind
      simp only [Bool.and_eq_true, decide_eq_true_eq] at hp
      have hlist : ∀ x ∈ ndRanges, x.1 < 128 → x = (48, 57) := by decide
      have hr : r = (48, 57) := hlist r hmem (lt_of_le_of_lt hp.1 h128)
      rw [hr] at hp
      exact ⟨hp.1, hp.2⟩

/-- A non-empty all-digit group does not end in a newline, so the
`$`-before-newline stripping leaves it alone. -/
theorem getLast?_ne_newline {ds : List Char} (hne : ds ≠ [])
    (hdig : ∀ d ∈ ds, isDigitChar d = true) : ¬ ds.getLast? = some '\n' := by
  intro h
  have hmem : '\n' ∈ ds := by
    have hgl := List.getLast?_eq_getLast ds hne
    rw [hgl] at h
    injection h with h
    rw [← h]
    exact List.getLast_mem hne
  exact absurd (hdig '\n' hmem) (by decide)

/-- On a label whose row is a non-empty string of ASCII digits, the
resolver returns `row + columnWeight`, exactly the specification formula. -/
theorem calc_ascii (c : Char) (ds : List Char)
    (hcol : c = 'A' ∨ c = 'B' ∨ c = 'C' ∨ c = 'D') (hne : ds ≠ [])
    (hdig : ∀ d ∈ ds, '0' ≤ d ∧ d ≤ '9') :
    calculate_seat_distance ⟨c :: ds⟩ =
      some ((parseRow ds : ℚ) + columnWeight c) := by
  have hdig' : ∀ d ∈ ds, isDigitChar d = true :=
    fun d hd => ascii_isDigit (hdig d hd).1 (hdig d hd).2
  rw [calc_cons rfl]
  simp only [if_neg (getLast?_ne_newline hne hdig'),
    if_pos ((guard_iff c ds).mpr ⟨hcol, hne, hdig'⟩)]

/-- C10: the sequencer is only total when every booking has at least one
seat: a batch containing a booking with an empty seat list always fails
(Python's `max([])` raising), rather than skipping or excluding that
booking. -/
theorem C10_empty_seats_fail (st : CacheState) (bookings : List Booking)
    (b : Booking) (hb : b ∈ bookings) (hempty : b.seats = []) :
    (process_bookings_with_heap st bookings).2 = none := by
  exact process_none (buildInfos_member_none hb (buildInfo_empty_seats hempty) st)

/-- Closed witness for C10: a batch with an empty-seats booking fails even
though its other booking is fine. -/
theorem C10_witness :
    (⟨"x", []⟩ : Booking) ∈ ([⟨"101", ["A1"]⟩, ⟨"x", []⟩] : List Booking) ∧
    (⟨"x", []⟩ : Booking).seats = [] ∧
    (process_bookings_with_heap initState [⟨"101", ["A1"]⟩, ⟨"x", []⟩]).2 = none :=
  ⟨by decide, rfl, C10_empty_seats_fail initState _ ⟨"x", []⟩ (by decide) rfl⟩

/-- C4 counterexample: the claimed "fails exactly outside `^[A-D][0-9]+$`
with no trailing characters" is false of the code — Python's `$` matches
before one trailing newline and `\d` matches Unicode decimal digits, so
`"A1\n"` resolves to 1.3 and `"A٣"` (Arabic-Indic three) to 3.3, though
neither matches the claimed pattern. -/
theorem C4_counterexample :
    calculate_seat_distance "A1\n" = some (13/10) ∧
    ¬ matchesSeatRegex "A1\n" ∧
    calculate_seat_distance "A٣" = some (33/10) ∧
    ¬ matchesSeatRegex "A٣" := by
  refine ⟨by with_unfolding_all decide, ?_, by with_unfolding_all decide, ?_⟩
  · rintro ⟨c, ds, heq, hcol, hne, hdig⟩
    have hdata : ("A1\n").data = ['A', '1', '\n'] := rfl
    rw [hdata, List.cons.injEq] at heq
    rcases heq with ⟨rfl, rfl⟩
    exact absurd (hdig '\n' (by decide)).1 (by decide)
  · rintro ⟨c, ds, heq, hcol, hne, hdig⟩
    have hdata : ("A٣").data = ['A', '٣'] := rfl
    rw [hdata, List.cons.injEq] at heq
    rcases heq with ⟨rfl, rfl⟩
    exact absurd (hdig '٣' (by decide)).2 (by decide)

/-- C4 (amended): the resolver succeeds exactly on what Python's
`re.match(r'^([A-D])(\d+)$')` accepts — a column A–D, one or more Unicode
decimal digits, and optionally one trailing newline; restricted to
ASCII labels with no trailing newline this is exactly the claimed
`^[A-D][0-9]+$`; `Z99`, `A` and `123` all fail; and any resolver failure
during sequencing aborts the entire batch with no partial result. -/
theorem C4_invalid_rejected :
    (∀ s : String, (calculate_seat_distance s).isSome ↔ matchesSeatPyRegex s) ∧
    (∀ s : String, (∀ ch ∈ s.data, ch.toNat < 128) →
      ¬ s.data.getLast? = some '\n' →
      ((calculate_seat_distance s).isSome ↔ matchesSeatRegex s)) ∧
    calculate_seat_distance "Z99" = none ∧
    calculate_seat_distance "A" = none ∧
    calculate_seat_distance "123" = none ∧
    ∀ (st : CacheState) (bookings : List Booking) (b : Booking) (s : String),
      CacheConsistent st → b ∈ bookings → s ∈ b.seats →
      calculate_seat_distance s = none →
      (process_bookings_with_heap st bookings).2 = none := by
  have hpy : ∀ s : String, (calculate_seat_distance s).isSome ↔ matchesSeatPyRegex s := by
    intro s
    unfold matchesSeatPyRegex
    cases hs : s.data with
    | nil => simp [calc_nil hs, hs]
    | cons c rest =>
        rw [calc_cons hs]
        constructor
        · intro hsome
          by_cases hl : rest.getLast? = some '\n'
          · simp only [if_pos hl] at hsome
            have hg : (isColumnChar c && !rest.dropLast.isEmpty &&
                rest.dropLast.all isDigitChar) = true := by
              by_contra hng
              rw [if_neg hng] at hsome
              simp at hsome
            rcases (guard_iff c rest.dropLast).mp hg with ⟨hcol, hne, hdig⟩
            have hrestne : rest ≠ [] := by
              intro hnil
              rw [hnil] at hl
              simp at hl
            have hlast : rest.getLast hrestne = '\n' := by
              have h2 := List.getLast?_eq_getLast rest hrestne
              rw [h2] at hl
              exact Option.some.inj hl
            refine ⟨c, rest.dropLast, ['\n'], ?_, hcol, hne, hdig, Or.inr rfl⟩
            rw [← hlast, List.dropLast_append_getLast hrestne]
          · simp only [if_neg hl] at hsome
            have hg : (isColumnChar c && !rest.isEmpty &&
                rest.all isDigitChar) = true := by
              by_contra hng
              rw [if_neg hng] at hsome
              simp at hsome
            rcases (guard_iff c rest).mp hg with ⟨hcol, hne, hdig⟩
            exact ⟨c, rest, [], by simp, hcol, hne, hdig, Or.inl rfl⟩
        · rintro ⟨c', ds, tail, heq, hcol, hne, hdig, htail⟩
          rw [List.cons.injEq] at heq
          rcases heq with ⟨rfl, rfl⟩
          rcases htail with rfl | rfl
          · simp only [List.append_nil,
              if_neg (getLast?_ne_newline hne hdig),
              if_pos ((guard_iff c ds).mpr ⟨hcol, hne, hdig⟩)]
            rfl
          · have h1 : (ds ++ ['\n']).getLast? = some '\n' := by simp
            have h2 : (ds ++ ['\n']).dropLast = ds := by simp
            simp only [if_pos h1, h2,
              if_pos ((guard_iff c ds).mpr ⟨hcol, hne, hdig⟩)]
            rfl
  refine ⟨hpy, ?_, by decide, by decide, by decide, ?_⟩
  · intro s hascii hnl
    rw [hpy s]
    unfold matchesSeatPyRegex matchesSeatRegex
    constructor
    · rintro ⟨c, ds, tail, heq, hcol, hne, hdig, htail⟩
      rcases htail with rfl | rfl
      · refine ⟨c, ds, by simpa using heq, hcol, hne, ?_⟩
        intro d hd
        refine digit_ascii (hdig d hd) (hascii d ?_)
        rw [heq]
        simp [hd]
      · refine absurd ?_ hnl
        rw [heq, ← List.cons_append]
        exact List.getLast?_concat _
    · rintro ⟨c, ds, heq, hcol, hne, hdig⟩
      exact ⟨c, ds, [], by simpa using heq, hcol, hne,
        fun d hd => ascii_isDigit (hdig d hd).1 (hdig d hd).2, Or.inl rfl⟩
  · intro st bookings b s hcc hb hs hnone
    apply process_none
    rw [(buildInfos_eq hcc bookings).1]
    exact pureInfos_none hb (pureInfo_invalid_seat hs hnone)

/-- Closed witness for C4: a batch whose second booking contains `Z99`
aborts wholesale. -/
theorem C4_witness :
    (process_bookings_with_heap initState
      [⟨"101", ["A1"]⟩, ⟨"102", ["B2", "Z99"]⟩]).2 = none :=
  C4_invalid_rejected.2.2.2.2.2 initState _ ⟨"102", ["B2", "Z99"]⟩ "Z99"
    initState_consistent (by decide) (by decide) (by decide)

/-- C2 counterexample: with input arrival order `b2` then `a1` (equal
`maxDistance`), the emitted order is `a1` then `b2` — ascending
`bookingId`, not insertion/arrival order. -/
theorem C2_counterexample :
    (process_bookings_with_heap initState [⟨"b2", ["A1"]⟩, ⟨"a1", ["A1"]⟩]).2 =
      some ⟨[⟨1, "a1", ["A1"], 13/10, 13/10⟩, ⟨2, "b2", ["A1"], 13/10, 13/10⟩], 2, 2⟩ ∧
    ["a1", "b2"] ≠ ["b2", "a1"] := by
  constructor
  · with_unfolding_all decide
  · decide

/-- C2 (amended): among bookings with equal `maxDistance`, the emitted
order is ascending `bookingId` (lexicographic string order), the heap's
tie-break — not insertion/arrival order. -/
theorem C2_tie_break (st : CacheState) (bookings : List Booking)
    (res : SequenceResult)
    (h : (process_bookings_with_heap st bookings).2 = some res) :
    ∀ i j : Fin res.boardingSequence.length, i < j →
      (res.boardingSequence.get i).maxDistance =
        (res.boardingSequence.get j).maxDistance →
      (res.boardingSequence.get i).bookingId ≤
        (res.boardingSequence.get j).bookingId := by
  intro i j hij heq
  have hp := List.pairwise_iff_get.mp (process_entries_sorted h) i j hij
  rcases hp with hlt | ⟨_, hle⟩
  · exact absurd heq (ne_of_gt hlt)
  · exact hle

/-- Closed witness for C2's amended theorem on the tie example. -/
theorem C2_witness : ("a1" : String) ≤ "b2" :=
  C2_tie_break initState [⟨"b2", ["A1"]⟩, ⟨"a1", ["A1"]⟩]
    ⟨[⟨1, "a1", ["A1"], 13/10, 13/10⟩, ⟨2, "b2", ["A1"], 13/10, 13/10⟩], 2, 2⟩
    (by with_unfolding_all decide) ⟨0, by decide⟩ ⟨1, by decide⟩ (by decide) rfl

/-- Success of the first loop preserves the booking count, in any cache
state. -/
theorem buildInfos_snd (st : CacheState) (b : Booking) (rest : List Booking) :
    (buildInfos st (b :: rest)).2 =
      match (buildInfo st b).2 with
      | none => none
      | some info => ((buildInfos (buildInfo st b).1 rest).2).map (info :: ·) := by
  conv_lhs => rw [buildInfos]
  rcases hb : buildInfo st b with ⟨st1, o⟩
  cases o <;> rcases hr : buildInfos st1 rest with ⟨st2, r⟩ <;> simp [hb, hr]

theorem buildInfos_length {st : CacheState} {bs : List Booking}
    {infos : List BookingInfo} (h : (buildInfos st bs).2 = some infos) :
    infos.length = bs.length := by
  induction bs generalizing st infos with
  | nil =>
      simp [buildInfos] at h
      simp [← h]
  | cons b rest ih =>
      rw [buildInfos_snd] at h
      cases ho : (buildInfo st b).2 with
      | none => rw [ho] at h; simp at h
      | some info =>
          rw [ho] at h
          cases hr : (buildInfos (buildInfo st b).1 rest).2 with
          | none => rw [hr] at h; simp at h
          | some infos' =>
              rw [hr] at h
              simp at h
              simp [← h, ih hr]

/-- C9: the pipeline always rates its own output as perfectly ordered:
analyzing the sequence produced by the sequencer yields zero blocking
potential, and a 100 optimality score whenever the batch is non-empty. -/
theorem C9_pipeline_self_consistent (st : CacheState) (bookings : List Booking)
    (res : SequenceResult)
    (h : (process_bookings_with_heap st bookings).2 = some res) :
    (analyze_boarding_efficiency res.boardingSequence).blockingPotential = 0 ∧
    (bookings ≠ [] →
      (analyze_boarding_efficiency res.boardingSequence).optimalityScore = 100) := by
  rcases process_some_inv h with ⟨infos, hinfos, hres⟩
  subst hres
  have hana := analyze_descending (process_entries_descending h)
  refine ⟨hana.1, fun hne => hana.2 ?_⟩
  intro hnil
  have h0 : (assignSeq 1 (List.insertionSort heapLE infos)).length =
      ([] : List SeqEntry).length := congrArg List.length hnil
  rw [assignSeq_length, List.length_insertionSort, buildInfos_length hinfos] at h0
  exact hne (List.length_eq_zero.mp (by simpa using h0))

/-- Closed witness for C9 on a one-booking batch. -/
theorem C9_witness :
    (analyze_boarding_efficiency [⟨1, "101", ["A1"], 13/10, 13/10⟩]).blockingPotential = 0 ∧
    (analyze_boarding_efficiency [⟨1, "101", ["A1"], 13/10, 13/10⟩]).optimalityScore = 100 :=
  have h := C9_pipeline_self_consistent initState [⟨"101", ["A1"]⟩]
    ⟨[⟨1, "101", ["A1"], 13/10, 13/10⟩], 1, 1⟩ (by with_unfolding_all decide)
  ⟨h.1, h.2 (by decide)⟩

/-- C3 counterexample: in the spec's batch scenario, booking `120` (seats
A20, C2) has max distance 20.3 (A20 = 20 + 0.3), not 20.0 as claimed; the
repo's own test suite asserts 20.3. -/
theorem C3_counterexample :
    ((process_bookings_with_heap initState
      [⟨"101", ["A1", "B1"]⟩, ⟨"120", ["A20", "C2"]⟩, ⟨"150", ["D15", "C15"]⟩]).2.map
        (fun r => r.boardingSequence.map (·.maxDistance))) =
      some [203/10, 151/10, 13/10] ∧ (203/10 : ℚ) ≠ 20 := by
  constructor
  · with_unfolding_all decide
  · with_unfolding_all decide

/-- C3 (amended): every valid label resolves to `row + columnWeight`, with
weights A→0.3, B→0.2, C→0.1, D→0.0; concretely A10→10.3, D20→20.0,
B10→10.2, C5→5.1; and the three-booking batch yields max distances 1.3,
20.3, 15.1 (booking 120 has 20.3, not 20.0), emitted order
`[120, 150, 101]` with sequence numbers 1, 2, 3 and 6 passengers. -/
theorem C3_resolver_values :
    (∀ (c : Char) (ds : List Char), (c = 'A' ∨ c = 'B' ∨ c = 'C' ∨ c = 'D') →
      ds ≠ [] → (∀ d ∈ ds, '0' ≤ d ∧ d ≤ '9') →
      calculate_seat_distance ⟨c :: ds⟩ = some ((parseRow ds : ℚ) + columnWeight c)) ∧
    (columnWeight 'A' = 3/10 ∧ columnWeight 'B' = 2/10 ∧
      columnWeight 'C' = 1/10 ∧ columnWeight 'D' = 0) ∧
    (calculate_seat_distance "A10" = some 10.3 ∧
      calculate_seat_distance "D20" = some 20 ∧
      calculate_seat_distance "B10" = some 10.2 ∧
      calculate_seat_distance "C5" = some 5.1) ∧
    (process_bookings_with_heap initState
      [⟨"101", ["A1", "B1"]⟩, ⟨"120", ["A20", "C2"]⟩, ⟨"150", ["D15", "C15"]⟩]).2 =
      some ⟨[⟨1, "120", ["A20", "C2"], 203/10, 21/10⟩,
             ⟨2, "150", ["D15", "C15"], 151/10, 15⟩,
             ⟨3, "101", ["A1", "B1"], 13/10, 6/5⟩], 3, 6⟩ := by
  refine ⟨?_, by with_unfolding_all decide, by with_unfolding_all decide,
    by with_unfolding_all decide⟩
  intro c ds hcol hne hdig
  exact calc_ascii c ds hcol hne hdig

/-- Closed witness for C3's universal resolver formula at `A10`. -/
theorem C3_witness :
    calculate_seat_distance ⟨'A' :: ['1', '0']⟩ =
      some ((parseRow ['1', '0'] : ℚ) + columnWeight 'A') :=
  C3_resolver_values.1 'A' ['1', '0'] (Or.inl rfl) (by decide) (by decide)

/-- C5: within a fixed row the columns resolve strictly in the order
A > B > C > D, and increasing the row by one dominates any column weight:
D on row `r+1` resolves strictly above A on row `r`. -/
theorem C5_distance_ordering (ds es : List Char) (hne : ds ≠ [])
    (hdig : ∀ d ∈ ds, '0' ≤ d ∧ d ≤ '9') (hene : es ≠ [])
    (hedig : ∀ d ∈ es, '0' ≤ d ∧ d ≤ '9')
    (hrow : parseRow es = parseRow ds + 1) :
    calculate_seat_distance ⟨'A' :: ds⟩ = some ((parseRow ds : ℚ) + 3/10) ∧
    calculate_seat_distance ⟨'B' :: ds⟩ = some ((parseRow ds : ℚ) + 2/10) ∧
    calculate_seat_distance ⟨'C' :: ds⟩ = some ((parseRow ds : ℚ) + 1/10) ∧
    calculate_seat_distance ⟨'D' :: ds⟩ = some ((parseRow ds : ℚ)) ∧
    calculate_seat_distance ⟨'D' :: es⟩ = some ((parseRow es : ℚ)) ∧
    ((parseRow ds : ℚ) + 3/10 > (parseRow ds : ℚ) + 2/10) ∧
    ((parseRow ds : ℚ) + 2/10 > (parseRow ds : ℚ) + 1/10) ∧
    ((parseRow ds : ℚ) + 1/10 > (parseRow ds : ℚ)) ∧
    ((parseRow es : ℚ) > (parseRow ds : ℚ) + 3/10) := by
  have hq : (parseRow es : ℚ) = (parseRow ds : ℚ) + 1 := by exact_mod_cast hrow
  refine ⟨?_, ?_, ?_, ?_, ?_, by linarith, by linarith, by linarith, by linarith⟩
  · rw [calc_ascii 'A' ds (by decide) hne hdig]
    norm_num +decide [columnWeight]
  · rw [calc_ascii 'B' ds (by decide) hne hdig]
    norm_num +decide [columnWeight]
  · rw [calc_ascii 'C' ds (by decide) hne hdig]
    norm_num +decide [columnWeight]
  · rw [calc_ascii 'D' ds (by decide) hne hdig]
    norm_num +decide [columnWeight]
  · rw [calc_ascii 'D' es (by decide) hene hedig]
    norm_num +decide [columnWeight]

/-- Closed witness for C5 at rows 5 and 6. -/
theorem C5_witness :
    calculate_seat_distance ⟨'A' :: ['5']⟩ = some ((parseRow ['5'] : ℚ) + 3/10) :=
  (C5_distance_ordering ['5'] ['6'] (by decide) (by decide) (by decide) (by decide)
    (by decide)).1

/-- C6: on a consistent cache, resolving a valid label returns the raw
resolver's value regardless of cache contents and keeps the cache
consistent, so any number of repeats returns the identical value; a repeat
of an already-cached label changes only the hit counter; and clearing the
cache never changes the value a later resolve computes. -/
theorem C6_cache_frame (st : CacheState) (l : String) (hcc : CacheConsistent st) :
    (get_seat_distance st l).2 = calculate_seat_distance l ∧
    CacheConsistent (get_seat_distance st l).1 ∧
    (get_seat_distance (get_seat_distance st l).1 l).2 = (get_seat_distance st l).2 ∧
    (∀ d : ℚ, st.seat_cache.lookup l = some d →
      get_seat_distance st l = ({ st with cache_hits := st.cache_hits + 1 }, some d)) ∧
    (get_seat_distance (clear_cache st) l).2 = calculate_seat_distance l := by
  have h1 := get_seat_distance_snd hcc l
  have h2 := get_seat_distance_consistent hcc l
  refine ⟨h1, h2, ?_, ?_, ?_⟩
  · rw [get_seat_distance_snd h2 l, h1]
  · intro d hd
    exact get_seat_distance_hit hd
  · exact get_seat_distance_snd (clear_cache_consistent st) l

/-- Closed witness for C6 at the fresh processor state and label `A1`. -/
theorem C6_witness :
    (get_seat_distance initState "A1").2 = calculate_seat_distance "A1" :=
  (C6_cache_frame initState "A1" initState_consistent).1

/-- C7 counterexample: the empty sequence is (vacuously) perfectly
descending, yet the analyzer scores it 0, not 100. -/
theorem C7_counterexample :
    List.Pairwise (fun a b : SeqEntry => b.maxDistance ≤ a.maxDistance)
      ([] : List SeqEntry) ∧
    (analyze_boarding_efficiency ([] : List SeqEntry)).optimalityScore = 0 ∧
    (0 : ℚ) ≠ 100 :=
  ⟨List.Pairwise.nil, rfl, by norm_num⟩

/-- C7 (amended): the analyzer's average is the arithmetic mean of the
`maxDistance` column (with `0/0 = 0` at the empty input), its blocking
potential is the pairwise inversion sum over positions, and every
perfectly descending sequence has blocking potential 0 and — when
non-empty — optimality score 100 (the empty sequence scores 0). -/
theorem C7_analyzer_metrics (entries : List SeqEntry) :
    (analyze_boarding_efficiency entries).averageDistance =
      (entries.map (·.maxDistance)).sum / (entries.length : ℚ) ∧
    (analyze_boarding_efficiency entries).blockingPotential =
      specBlocking (entries.map (·.maxDistance)) ∧
    (List.Pairwise (fun a b => b.maxDistance ≤ a.maxDistance) entries →
      (analyze_boarding_efficiency entries).blockingPotential = 0 ∧
      (entries ≠ [] → (analyze_boarding_efficiency entries).optimalityScore = 100)) :=
  ⟨analyze_averageDistance entries, analyze_blockingPotential entries,
    fun hs => analyze_descending hs⟩

/-- Closed witness for C7 on a two-entry descending sequence. -/
theorem C7_witness :
    (analyze_boarding_efficiency
      [⟨1, "a", ["A2"], 2, 2⟩, ⟨2, "b", ["A1"], 1, 1⟩]).blockingPotential = 0 ∧
    (analyze_boarding_efficiency
      [⟨1, "a", ["A2"], 2, 2⟩, ⟨2, "b", ["A1"], 1, 1⟩]).optimalityScore = 100 :=
  have h := (C7_analyzer_metrics [⟨1, "a", ["A2"], 2, 2⟩, ⟨2, "b", ["A1"], 1, 1⟩]).2.2
    (by with_unfolding_all decide)
  ⟨h.1, h.2 (by decide)⟩

/-- C8: the empty batch is not an error — it yields an empty entry list
with zero totals, and the analyzer returns exactly zero for all three
metrics; and on success `totalPassengers` is the sum of the seat counts of
the input bookings, counting repeated labels per occurrence. -/
theorem C8_degenerate_and_totals :
    (∀ st : CacheState, process_bookings_with_heap st [] = (st, some ⟨[], 0, 0⟩)) ∧
    analyze_boarding_efficiency [] = ⟨0, 0, 0⟩ ∧
    ∀ (st : CacheState) (bookings : List Booking) (res : SequenceResult),
      (process_bookings_with_heap st bookings).2 = some res →
      res.totalBookings = bookings.length ∧
      res.totalPassengers = (bookings.map (fun b => b.seats.length)).sum := by
  refine ⟨fun st => rfl, rfl, ?_⟩
  intro st bookings res h
  rcases process_some_inv h with ⟨infos, _, rfl⟩
  exact ⟨rfl, rfl⟩

/-- Closed witness for C8's totals clause, on a booking with a repeated
seat label: both occurrences count. -/
theorem C8_witness :
    ({ boardingSequence := [⟨1, "101", ["A1", "A1"], 13/10, 13/10⟩],
       totalBookings := 1, totalPassengers := 2 } : SequenceResult).totalBookings =
      ([⟨"101", ["A1", "A1"]⟩] : List Booking).length ∧
    ({ boardingSequence := [⟨1, "101", ["A1", "A1"], 13/10, 13/10⟩],
       totalBookings := 1, totalPassengers := 2 } : SequenceResult).totalPassengers =
      (([⟨"101", ["A1", "A1"]⟩] : List Booking).map (fun b => b.seats.length)).sum :=
  C8_degenerate_and_totals.2.2 initState [⟨"101", ["A1", "A1"]⟩]
    ⟨[⟨1, "101", ["A1", "A1"], 13/10, 13/10⟩], 1, 2⟩ (by with_unfolding_all decide)
